import Mathlib

/-!
Verification of the aiorpc_service deployment/control orchestrator.

Source files embedded here:
* `aiorpc_service/ctl.py`   — deploy / remove / status / lifecycle fan-out;
* `aiorpc_service/__init__.py` — certificate path resolution (`get_certificates`).

Python strings are modelled as lists of characters (`Str`).  The Python string
operations the source uses (`str.split`, `str.replace`, `str.join`, slicing,
`startswith`-style glob matching) are embedded as executable functions below.
-/

namespace AiorpcSvc

/-- Python strings, modelled as lists of characters. -/
abbrev Str := List Char

/-- `isPre a b` : `a` is a prefix of `b`. -/
def isPre : Str → Str → Bool
  | [], _ => true
  | _ :: _, [] => false
  | x :: xs, y :: ys => if x = y then isPre xs ys else false

/-- `isSuf a b` : `a` is a suffix of `b`. -/
def isSuf (a b : Str) : Bool := isPre a.reverse b.reverse

/-- Python `s.split(sep)` for a non-empty separator, scanning left to right and
splitting at each non-overlapping occurrence.  The recursion is structural in an
explicit fuel argument; one unit of fuel is spent per character consumed, so any
fuel `≥ s.length` computes the real split (`splitFuel_irrel`). -/
def splitFuel (sep : Str) : Nat → Str → List Str
  | 0, s => [s]
  | _ + 1, [] => [[]]
  | fuel + 1, c :: rest =>
    if sep ≠ [] ∧ isPre sep (c :: rest) = true then
      [] :: splitFuel sep fuel ((c :: rest).drop sep.length)
    else
      match splitFuel sep fuel rest with
      | [] => [[c]]
      | p :: ps => (c :: p) :: ps

/-- Python `s.split(sep)` (non-empty `sep`). -/
def pySplit (sep s : Str) : List Str := splitFuel sep s.length s

/-- Python `sep.join(parts)`. -/
def joinWith (sep : Str) : List Str → Str
  | [] => []
  | [x] => x
  | x :: xs => x ++ sep ++ joinWith sep xs

/-- Python `s.replace(old, new)` for non-empty `old`: every non-overlapping
occurrence, scanned left to right, is replaced by `new`.  Fueled exactly like
`splitFuel`. -/
def replaceFuel (old new : Str) : Nat → Str → Str
  | 0, s => s
  | _ + 1, [] => []
  | fuel + 1, c :: rest =>
    if old ≠ [] ∧ isPre old (c :: rest) = true then
      new ++ replaceFuel old new fuel ((c :: rest).drop old.length)
    else
      c :: replaceFuel old new fuel rest

/-- Python `s.replace(old, new)` (non-empty `old`). -/
def pyReplace (old new s : Str) : Str := replaceFuel old new s.length s

/-- Index of the first occurrence of `sep` in `s` (Python `s.find(sep)`;
`none` when absent). -/
def findSub (sep : Str) : Str → Option Nat
  | [] => if isPre sep [] then some 0 else none
  | c :: rest =>
    if isPre sep (c :: rest) then some 0
    else (findSub sep rest).map (· + 1)

/-- Consuming fuel at least the string length gives the same split regardless of
the exact fuel value. -/
theorem splitFuel_irrel (sep : Str) :
    ∀ (f₁ f₂ : Nat) (s : Str), s.length ≤ f₁ → s.length ≤ f₂ →
      splitFuel sep f₁ s = splitFuel sep f₂ s := by
  intro f₁
  induction f₁ with
  | zero =>
    intro f₂ s h₁ _
    have hs : s = [] := List.eq_nil_of_length_eq_zero (Nat.le_zero.mp h₁)
    subst hs
    cases f₂ <;> rfl
  | succ f ih =>
    intro f₂ s h₁ h₂
    cases s with
    | nil => cases f₂ <;> rfl
    | cons c rest =>
      cases f₂ with
      | zero => simp at h₂
      | succ g =>
        simp only [splitFuel]
        by_cases hc : sep ≠ [] ∧ isPre sep (c :: rest) = true
        · rw [if_pos hc, if_pos hc]
          have hsep : 1 ≤ sep.length := by
            cases sep with
            | nil => exact absurd rfl hc.1
            | cons a b => simp
          have hlen : ((c :: rest).drop sep.length).length ≤ rest.length := by
            rw [List.length_drop]
            simp only [List.length_cons]
            omega
          have h₁d : ((c :: rest).drop sep.length).length ≤ f := by
            simp only [List.length_cons] at h₁
            omega
          have h₂d : ((c :: rest).drop sep.length).length ≤ g := by
            simp only [List.length_cons] at h₂
            omega
          rw [ih g _ h₁d h₂d]
        · rw [if_neg hc, if_neg hc]
          have h₁r : rest.length ≤ f := by
            simp only [List.length_cons] at h₁
            omega
          have h₂r : rest.length ≤ g := by
            simp only [List.length_cons] at h₂
            omega
          rw [ih g rest h₁r h₂r]

/-- A split never produces the empty list of parts. -/
theorem splitFuel_ne_nil (sep : Str) :
    ∀ (f : Nat) (s : Str), splitFuel sep f s ≠ [] := by
  intro f
  cases f with
  | zero => intro s; simp [splitFuel]
  | succ f =>
    intro s
    cases s with
    | nil => simp [splitFuel]
    | cons c rest =>
      simp only [splitFuel]
      by_cases hc : sep ≠ [] ∧ isPre sep (c :: rest) = true
      · rw [if_pos hc]; simp
      · rw [if_neg hc]
        cases splitFuel sep f rest <;> simp

theorem pySplit_ne_nil (sep s : Str) : pySplit sep s ≠ [] :=
  splitFuel_ne_nil sep s.length s

theorem pySplit_nil (sep : Str) : pySplit sep [] = [[]] := rfl

/-- Unfolding: a split at a separator occurrence at the head of the string. -/
theorem pySplit_head (sep s : Str) (h1 : sep ≠ []) (h2 : isPre sep s = true) :
    pySplit sep s = [] :: pySplit sep (s.drop sep.length) := by
  cases s with
  | nil =>
    cases sep with
    | nil => exact absurd rfl h1
    | cons a b => simp [isPre] at h2
  | cons c rest =>
    show splitFuel sep (c :: rest).length (c :: rest) = _
    simp only [List.length_cons, splitFuel]
    rw [if_pos ⟨h1, h2⟩]
    have hsep : 1 ≤ sep.length := by
      cases sep with
      | nil => exact absurd rfl h1
      | cons a b => simp
    have hd : ((c :: rest).drop sep.length).length ≤ rest.length := by
      rw [List.length_drop]
      simp only [List.length_cons]
      omega
    exact congrArg _ (splitFuel_irrel sep rest.length _ _ hd (le_refl _))

/-- Unfolding: no separator occurrence at the head of the string. -/
theorem pySplit_cons_neg (sep : Str) (c : Char) (rest : Str)
    (h : ¬ (sep ≠ [] ∧ isPre sep (c :: rest) = true)) :
    pySplit sep (c :: rest) =
      match pySplit sep rest with
      | [] => [[c]]
      | p :: ps => (c :: p) :: ps := by
  show splitFuel sep (c :: rest).length (c :: rest) = _
  simp only [List.length_cons, splitFuel]
  rw [if_neg h]
  rfl

/-- Splitting on a single character present at the head. -/
theorem pySplit_char_head (c : Char) (rest : Str) :
    pySplit [c] (c :: rest) = [] :: pySplit [c] rest := by
  have h2 : isPre [c] (c :: rest) = true := by simp [isPre]
  have h := pySplit_head [c] (c :: rest) (by simp) h2
  simpa using h

/-- Splitting on a single character absent at the head. -/
theorem pySplit_char_cons (a c : Char) (rest : Str) (hne : a ≠ c) :
    pySplit [c] (a :: rest) =
      match pySplit [c] rest with
      | [] => [[a]]
      | p :: ps => (a :: p) :: ps := by
  apply pySplit_cons_neg
  intro hcontra
  have := hcontra.2
  simp [isPre, hne] at this
  exact hne this.symm

/-- Splitting a separator-free string yields a single part. -/
theorem pySplit_char_free (c : Char) :
    ∀ x : Str, c ∉ x → pySplit [c] x = [x] := by
  intro x
  induction x with
  | nil => intro _; exact pySplit_nil [c]
  | cons a t ih =>
    intro hmem
    have ha : a ≠ c := fun h => hmem (h ▸ List.mem_cons_self a t)
    have ht : c ∉ t := fun h => hmem (List.mem_cons_of_mem a h)
    rw [pySplit_char_cons a c t ha, ih ht]

/-- Splitting `x ++ c :: rest` where `x` is `c`-free peels off `x` as the first
part. -/
theorem pySplit_char_append (c : Char) :
    ∀ (x rest : Str), c ∉ x →
      pySplit [c] (x ++ c :: rest) = x :: pySplit [c] rest := by
  intro x
  induction x with
  | nil => intro rest _; simpa using pySplit_char_head c rest
  | cons a t ih =>
    intro rest hmem
    have ha : a ≠ c := fun h => hmem (h ▸ List.mem_cons_self a t)
    have ht : c ∉ t := fun h => hmem (List.mem_cons_of_mem a h)
    have : pySplit [c] ((a :: t) ++ c :: rest) =
        match pySplit [c] (t ++ c :: rest) with
        | [] => [[a]]
        | p :: ps => (a :: p) :: ps := pySplit_char_cons a c (t ++ c :: rest) ha
    rw [this, ih rest ht]

/-- `replace` agrees with splitting on the old string and joining with the new
one: every non-overlapping occurrence is replaced verbatim and the content
between occurrences is kept unchanged. -/
theorem replaceFuel_eq_join (old new : Str) :
    ∀ (f : Nat) (s : Str),
      replaceFuel old new f s = joinWith new (splitFuel old f s) := by
  intro f
  induction f with
  | zero => intro s; rfl
  | succ f ih =>
    intro s
    cases s with
    | nil => rfl
    | cons c rest =>
      by_cases hc : old ≠ [] ∧ isPre old (c :: rest) = true
      · simp only [replaceFuel, splitFuel, if_pos hc]
        rw [ih]
        cases h2 : splitFuel old f ((c :: rest).drop old.length) with
        | nil => exact absurd h2 (splitFuel_ne_nil old f _)
        | cons p ps => simp [joinWith]
      · simp only [replaceFuel, splitFuel, if_neg hc]
        rw [ih]
        cases h2 : splitFuel old f rest with
        | nil => exact absurd h2 (splitFuel_ne_nil old f rest)
        | cons p ps => cases ps <;> simp [joinWith]

/-- `pyReplace old new s` is `new`-joining of the `old`-split of `s`. -/
theorem pyReplace_eq_join_split (old new s : Str) :
    pyReplace old new s = joinWith new (pySplit old s) :=
  replaceFuel_eq_join old new s.length s

/-- A string without any occurrence of `old` is left unchanged by `replace`. -/
theorem replaceFuel_no_occurrence (old new : Str) :
    ∀ (f : Nat) (s : Str), findSub old s = none → replaceFuel old new f s = s := by
  intro f
  induction f with
  | zero => intro s _; rfl
  | succ f ih =>
    intro s hs
    cases s with
    | nil => rfl
    | cons c rest =>
      simp only [findSub] at hs
      by_cases hp : isPre old (c :: rest) = true
      · rw [if_pos hp] at hs
        exact absurd hs (by simp)
      · rw [if_neg hp] at hs
        have hrest : findSub old rest = none := by
          cases h2 : findSub old rest with
          | none => rfl
          | some i => rw [h2] at hs; simp at hs
        simp only [replaceFuel]
        rw [if_neg (fun hcontra => hp hcontra.2)]
        rw [ih rest hrest]

theorem pyReplace_no_occurrence (old new s : Str) (h : findSub old s = none) :
    pyReplace old new s = s :=
  replaceFuel_no_occurrence old new s.length s h

theorem joinWith_cons₂ (sep x y : Str) (ys : List Str) :
    joinWith sep (x :: y :: ys) = x ++ sep ++ joinWith sep (y :: ys) := rfl

/-- Splitting a joined-and-terminated list of separator-free parts recovers the
parts followed by one empty segment. -/
theorem pySplit_join_concat (c : Char) :
    ∀ inv : List Str, inv ≠ [] → (∀ x ∈ inv, c ∉ x) →
      pySplit [c] (joinWith [c] inv ++ [c]) = inv ++ [[]] := by
  intro inv
  induction inv with
  | nil => intro h _; exact absurd rfl h
  | cons a t ih =>
    intro _ hmem
    cases t with
    | nil =>
      have ha : c ∉ a := hmem a (List.mem_cons_self a [])
      have : joinWith [c] [a] ++ [c] = a ++ c :: [] := rfl
      rw [this, pySplit_char_append c a [] ha, pySplit_nil]
      simp
    | cons b t2 =>
      have ha : c ∉ a := hmem a (List.mem_cons_self a (b :: t2))
      have hrest : ∀ x ∈ b :: t2, c ∉ x :=
        fun x hx => hmem x (List.mem_cons_of_mem a hx)
      rw [joinWith_cons₂]
      have hshape : (a ++ [c] ++ joinWith [c] (b :: t2)) ++ [c]
          = a ++ c :: (joinWith [c] (b :: t2) ++ [c]) := by
        simp [List.append_assoc]
      rw [hshape, pySplit_char_append c a _ ha, ih (by simp) hrest]
      simp

-- ---------------------------------------------------------------------------
-- Inventory file (ctl.py lines 155-156, read side modelled from the spec)
-- ---------------------------------------------------------------------------

/-- Inventory serialization, ctl.py lines 155-156:
`fd.write("\n".join(inventory) + "\n")`. -/
def writeInventory (inventory : List Str) : Str :=
  joinWith [Char.ofNat 10] inventory ++ [Char.ofNat 10]

/-- Modelled from the spec: the inventory reader `read_inventory` is imported
from `koder_utils`, so its code is not part of this repository's sources.  The
spec fixes the format it consumes: UTF-8 text, one node identity per line,
trailing newline, no comments, no blank-line skipping.  Reading is therefore
modelled as splitting the file content on the newline character and dropping the
final empty segment produced by the trailing newline. -/
def read_inventory (content : Str) : List Str :=
  let parts := pySplit [Char.ofNat 10] content
  if parts.getLast? = some [] then parts.dropLast else parts

-- ---------------------------------------------------------------------------
-- Service-unit template rendering (ctl.py lines 142-144)
-- ---------------------------------------------------------------------------

/-- The literal token `{INSTALL}` replaced in the service-unit template
(ctl.py line 143). -/
def installToken : Str := ['{', 'I', 'N', 'S', 'T', 'A', 'L', 'L', '}']

/-- The literal token `{CONFIG_PATH}` replaced in the service-unit template
(ctl.py line 144). -/
def configPathToken : Str :=
  ['{', 'C', 'O', 'N', 'F', 'I', 'G', '_', 'P', 'A', 'T', 'H', '}']

/-- Service-unit rendering, ctl.py lines 142-144: the template content is read
and the two tokens are substituted in order with Python `str.replace`:
`service_content.replace("{INSTALL}", str(cfg.root))` then
`.replace("{CONFIG_PATH}", str(cfg.config))`. -/
def renderService (templ root configPath : Str) : Str :=
  pyReplace configPathToken configPath (pyReplace installToken root templ)

-- ---------------------------------------------------------------------------
-- Claim C6
-- ---------------------------------------------------------------------------

/-- C6, counterexample: the empty node list satisfies the claim's hypotheses
vacuously (every element is non-empty and newline-free), yet writing the
inventory file for it and reading it back yields `[""]`, not `[]`: the file then
consists of a single newline, i.e. one empty line, and the spec guarantees no
blank-line skipping. -/
theorem c6_roundtrip_counterexample :
    (∀ x ∈ ([] : List Str), x ≠ [] ∧ Char.ofNat 10 ∉ x) ∧
      read_inventory (writeInventory []) ≠ [] := by
  refine ⟨by simp, ?_⟩
  decide

/-- C6 (amended): for every NON-EMPTY list of node identities, each a non-empty
string without newlines, writing the inventory file (one identity per line with
a trailing newline) and then reading it back yields the same list in the same
order; the empty list instead reads back as a single empty identity. -/
theorem c6_inventory_roundtrip (inv : List Str) (hne : inv ≠ [])
    (helem : ∀ x ∈ inv, x ≠ [] ∧ Char.ofNat 10 ∉ x) :
    read_inventory (writeInventory inv) = inv := by
  unfold read_inventory writeInventory
  rw [pySplit_join_concat (Char.ofNat 10) inv hne (fun x hx => (helem x hx).2)]
  rw [if_pos (by simp), List.dropLast_concat]

/-- Witness for `c6_inventory_roundtrip`: the inventory `["a", "b", "c"]`
round-trips to itself, in order. -/
theorem c6_inventory_roundtrip_witness :
    read_inventory (writeInventory [['a'], ['b'], ['c']]) = [['a'], ['b'], ['c']] :=
  c6_inventory_roundtrip [['a'], ['b'], ['c']] (by decide) (by decide)

-- ---------------------------------------------------------------------------
-- Claim C7
-- ---------------------------------------------------------------------------

/-- C7: rendering the service-unit template replaces every occurrence of the
literal substrings `{INSTALL}` and `{CONFIG_PATH}` verbatim with the resolved
install root and config path respectively — rendering equals splitting the text
at each token and joining the pieces with the replacement — and template content
containing neither token is left completely unchanged. -/
theorem c7_render_service :
    (∀ templ root configPath : Str,
      renderService templ root configPath =
        joinWith configPath
          (pySplit configPathToken (joinWith root (pySplit installToken templ)))) ∧
    (∀ s root configPath : Str,
      findSub installToken s = none → findSub configPathToken s = none →
        renderService s root configPath = s) := by
  constructor
  · intro templ root cp
    unfold renderService
    rw [pyReplace_eq_join_split, pyReplace_eq_join_split]
  · intro s root cp h1 h2
    unfold renderService
    rw [pyReplace_no_occurrence installToken root s h1]
    rw [pyReplace_no_occurrence configPathToken cp s h2]

/-- Witness for `c7_render_service`: a template without either token renders to
itself. -/
theorem c7_render_service_witness :
    renderService ['E', 'x', 'e', 'c'] ['r'] ['c'] = ['E', 'x', 'e', 'c'] :=
  c7_render_service.2 ['E', 'x', 'e', 'c'] ['r'] ['c'] (by decide) (by decide)

-- ---------------------------------------------------------------------------
-- Certificate path resolution (__init__.py lines 162-177)
-- ---------------------------------------------------------------------------

/-- Error taxonomy of the embedded control functions, matching the Python
exception classes the source raises or catches. -/
inductive CtlErr where
  | runtimeErr
  | valueErr
  | indexErr
  | subprocErr
  | otherErr
deriving DecidableEq

deriving instance DecidableEq for Except

/-- The `[node]` placeholder of the certificate path template. -/
def nodeToken : Str := ['[', 'n', 'o', 'd', 'e', ']']

/-- Whether a file name matches the glob pattern `before ++ "*" ++ after`
(`certs_folder.glob(certs_glob.replace('[node]', '*'))`, __init__.py line 173):
`*` matches any, possibly empty, character sequence, and the fixed parts of the
source's templates contain no further glob metacharacters, so a name matches
exactly when `before` is a prefix of it and `after` is a suffix of the rest. -/
def matchesGlob (beforeNode afterNode name : Str) : Bool :=
  isPre beforeNode name && isSuf afterNode (name.drop beforeNode.length)

/-- The node-identity slice `file.name[len(before_node) : -len(after_node)]`
(__init__.py line 174).  Python's negative stop index denotes
`len(name) - len(after_node)` when `after_node` is non-empty, but `-0 == 0`
when it is empty, making the slice empty. -/
def extractNodeName (beforeNode afterNode name : Str) : Str :=
  let stop := if afterNode.length = 0 then 0 else name.length - afterNode.length
  (name.take stop).drop beforeNode.length

/-- Python dict insertion `certificates[node_name] = file`: overwrite the value
in place when the key is already present, otherwise append the new pair. -/
def dictInsert (d : List (Str × Str)) (k v : Str) : List (Str × Str) :=
  if d.any (fun p => decide (p.1 = k)) then
    d.map (fun p => if p.1 = k then (k, v) else p)
  else d ++ [(k, v)]

/-- `get_certificates` (__init__.py lines 162-177).  The filesystem is
abstracted: `folderIsDir` is whether the template's parent directory exists
(the line 168 check raising RuntimeError), and `files` lists the file names in
that directory in glob order.  The destructuring assignment
`before_node, after_node = certs_glob.split("[node]")` (line 171) raises
ValueError unless the split has exactly two parts, i.e. unless the template
name contains exactly one `[node]` token. -/
def get_certificates (folderIsDir : Bool) (templName : Str) (files : List Str) :
    Except CtlErr (List (Str × Str)) :=
  if folderIsDir = false then .error .runtimeErr
  else
    match pySplit nodeToken templName with
    | [beforeNode, afterNode] =>
      .ok ((files.filter (matchesGlob beforeNode afterNode)).foldl
        (fun d f => dictInsert d (extractNodeName beforeNode afterNode f) f) [])
    | _ => .error .valueErr

/-- Number of `[node]` tokens in a template name: Python `str.split` returns one
part more than the number of non-overlapping separator occurrences. -/
def nodeTokenCount (s : Str) : Nat := (pySplit nodeToken s).length - 1

-- ---------------------------------------------------------------------------
-- Claim C3
-- ---------------------------------------------------------------------------

/-- C3: certificate path resolution of the template `cert.[node].pem` against a
directory holding `cert.node1.pem` and `cert.node2.pem` yields exactly
`{"node1": cert.node1.pem, "node2": cert.node2.pem}` — each matching file keyed
by its name with the template's fixed prefix and suffix stripped — and
resolution fails (with an error) for every template name that does not contain
exactly one `[node]` token, whatever the directory contents. -/
theorem c3_cert_resolution :
    (get_certificates true "cert.[node].pem".toList
        ["cert.node1.pem".toList, "cert.node2.pem".toList] =
      .ok [("node1".toList, "cert.node1.pem".toList),
           ("node2".toList, "cert.node2.pem".toList)]) ∧
    ∀ (folderIsDir : Bool) (t : Str) (files : List Str),
      nodeTokenCount t ≠ 1 →
      ∃ e, get_certificates folderIsDir t files = Except.error e := by
  refine ⟨by decide, ?_⟩
  intro folderIsDir t files h
  cases folderIsDir with
  | false => exact ⟨.runtimeErr, rfl⟩
  | true =>
    have hlen : (pySplit nodeToken t).length ≠ 2 := by
      intro h2
      apply h
      unfold nodeTokenCount
      rw [h2]

    cases hsp : pySplit nodeToken t with
    | nil => exact absurd hsp (pySplit_ne_nil _ _)
    | cons p ps =>
      cases ps with
      | nil =>
        refine ⟨.valueErr, ?_⟩
        unfold get_certificates
        rw [if_neg (by simp), hsp]
      | cons q qs =>
        cases qs with
        | nil => rw [hsp] at hlen; simp at hlen
        | cons r rs =>
          refine ⟨.valueErr, ?_⟩
          unfold get_certificates
          rw [if_neg (by simp), hsp]

/-- Witness for `c3_cert_resolution`: a template with two `[node]` tokens makes
resolution fail. -/
theorem c3_cert_resolution_witness :
    ∃ e, get_certificates true "[node].[node]".toList ["a.b".toList] =
      Except.error e :=
  c3_cert_resolution.2 true "[node].[node]".toList ["a.b".toList] (by decide)

-- ---------------------------------------------------------------------------
-- Claim C9
-- ---------------------------------------------------------------------------

/-- With an empty fixed suffix the extracted node identity is always empty:
Python `name[len(before):-0]` is `name[len(before):0]`, the empty slice. -/
theorem extractNodeName_empty_suffix (beforeNode name : Str) :
    extractNodeName beforeNode [] name = [] := by
  simp [extractNodeName]

/-- Inserting under one fixed key keeps the dictionary at most one entry, all
under that key. -/
theorem dictInsert_const (k v : Str) (d : List (Str × Str))
    (hk : ∀ p ∈ d, p.1 = k) (hl : d.length ≤ 1) :
    (∀ p ∈ dictInsert d k v, p.1 = k) ∧ (dictInsert d k v).length ≤ 1 := by
  cases d with
  | nil => simp [dictInsert]
  | cons p t =>
    cases t with
    | nil =>
      have hp := hk p (by simp)
      simp [dictInsert, hp]
    | cons q t2 => simp at hl

/-- Folding insertions under one fixed key keeps the dictionary at most one
entry, all under that key. -/
theorem foldl_dictInsert_const (k : Str) :
    ∀ (files : List Str) (d : List (Str × Str)),
      (∀ p ∈ d, p.1 = k) → d.length ≤ 1 →
      (∀ p ∈ files.foldl (fun acc f => dictInsert acc k f) d, p.1 = k) ∧
        (files.foldl (fun acc f => dictInsert acc k f) d).length ≤ 1 := by
  intro files
  induction files with
  | nil => intro d h1 h2; exact ⟨h1, h2⟩
  | cons f fs ih =>
    intro d h1 h2
    have h3 := dictInsert_const k f d h1 h2
    exact ih (dictInsert d k f) h3.1 h3.2

/-- C9: if the certificate template's file name ends with the `[node]`
placeholder — so the fixed suffix after the token is empty — then resolution
maps every matching file to the empty node identity (the slice
`file.name[len(before):-0]` is empty), and the resulting dictionary collapses
to at most a single entry keyed by the empty string instead of one entry per
node. -/
theorem c9_empty_suffix_collapse :
    ∀ (t beforeNode : Str) (files : List Str) (d : List (Str × Str)),
      pySplit nodeToken t = [beforeNode, []] →
      get_certificates true t files = .ok d →
      (∀ p ∈ d, p.1 = []) ∧ d.length ≤ 1 := by
  intro t beforeNode files d hsp hok
  unfold get_certificates at hok
  rw [if_neg (by simp), hsp] at hok
  simp only [Except.ok.injEq] at hok
  subst hok
  have hfun : (fun (acc : List (Str × Str)) f =>
      dictInsert acc (extractNodeName beforeNode [] f) f) =
      fun acc f => dictInsert acc [] f := by
    funext acc f
    rw [extractNodeName_empty_suffix]
  rw [hfun]
  exact foldl_dictInsert_const [] (files.filter (matchesGlob beforeNode [])) []
    (by simp) (by simp)

/-- Witness for `c9_empty_suffix_collapse`: template `cert.[node]` with files
`cert.a` and `cert.b` collapses to the single entry `{"": cert.b}`. -/
theorem c9_empty_suffix_collapse_witness :
    (∀ p ∈ [(([] : Str), "cert.b".toList)], p.1 = ([] : Str)) ∧
      ([(([] : Str), "cert.b".toList)] : List (Str × Str)).length ≤ 1 :=
  c9_empty_suffix_collapse "cert.[node]".toList "cert.".toList
    ["cert.a".toList, "cert.b".toList] [([], "cert.b".toList)]
    (by decide) (by decide)

-- ---------------------------------------------------------------------------
-- Remote-operation outcomes and the two asyncio.gather modes
-- ---------------------------------------------------------------------------

/-- Outcome of one awaited remote operation: normal return or a raised
exception. -/
abbrev OpRes := Except CtlErr Unit

/-- The error of an outcome, if any. -/
def errOf (r : OpRes) : Option CtlErr :=
  match r with
  | .ok _ => none
  | .error e => some e

/-- `asyncio.gather(*tasks)` WITHOUT `return_exceptions`: all tasks are started,
but the aggregate await raises the first exception among them, so the caller's
subsequent statements do not run.  Which failing task's exception surfaces
first in time is scheduling-dependent; the embedding picks the first in list
order, a choice none of the claims distinguish. -/
def gatherStrict (rs : List OpRes) : OpRes :=
  rs.foldr (fun r acc => match r with | .error e => .error e | .ok _ => acc) (.ok ())

/-- `asyncio.gather(*tasks, return_exceptions=True)`: every task runs to its
own completion and each exception is returned in that task's result slot
instead of being raised. -/
def gatherCapture (rs : List OpRes) : List (Option CtlErr) := rs.map errOf

/-- Sequential `await`s inside one coroutine: the first exception aborts the
remaining steps of that coroutine and becomes its outcome. -/
def seqSteps : List OpRes → OpRes
  | [] => .ok ()
  | s :: rest =>
    match s with
    | .error e => .error e
    | .ok _ => seqSteps rest

theorem gatherStrict_nil : gatherStrict [] = .ok () := rfl

theorem gatherStrict_cons_ok (t : List OpRes) :
    gatherStrict (.ok () :: t) = gatherStrict t := rfl

theorem gatherStrict_cons_err (e : CtlErr) (t : List OpRes) :
    gatherStrict (.error e :: t) = .error e := rfl

/-- A bare gather returns normally exactly when every task did. -/
theorem gatherStrict_ok_iff (rs : List OpRes) :
    gatherStrict rs = .ok () ↔ ∀ r ∈ rs, r = .ok () := by
  induction rs with
  | nil => simp [gatherStrict]
  | cons r t ih =>
    cases r with
    | error e =>
      rw [gatherStrict_cons_err]
      constructor
      · intro h; simp at h
      · intro h
        have := h (.error e) (by simp)
        simp at this
    | ok u =>
      cases u
      rw [gatherStrict_cons_ok, ih]
      constructor
      · intro h r hr
        rcases List.mem_cons.mp hr with h1 | h2
        · rw [h1]
        · exact h r h2
      · intro h r hr
        exact h r (List.mem_cons_of_mem _ hr)

-- ---------------------------------------------------------------------------
-- remove (ctl.py lines 43-78)
-- ---------------------------------------------------------------------------

/-- Whether an exception is an instance of `subprocess.SubprocessError`. -/
def isSubprocErr : CtlErr → Bool
  | .subprocErr => true
  | _ => false

/-- `try: await ... except subprocess.SubprocessError: pass` (ctl.py lines
46-54): a SubprocessError is swallowed, any other exception propagates. -/
def swallowSubproc (r : OpRes) : OpRes :=
  match r with
  | .error e => if isSubprocErr e then .ok () else .error e
  | .ok _ => .ok ()

/-- Indices of the nodes whose captured outcome is a failure; these are the
nodes logged at ctl.py lines 68-71. -/
def failedIdxs (rs : List (Option CtlErr)) : List Nat :=
  (List.range rs.length).filter (fun i => decide ((rs.get? i).getD none ≠ none))

/-- Observable outcome of one `remove` invocation. -/
structure RemoveRun where
  perNode : List (Option CtlErr)
  loggedNodes : List Nat
  configDeleted : Bool
  inventoryDeleted : Bool
  raised : Option CtlErr
deriving DecidableEq

/-- `remove` (ctl.py lines 43-78).  Inputs abstract the remote and local
environment: `disableRes` and `stopRes` are the aggregate outcomes of the
`disable` and `stop` fan-outs (lines 47, 52); `nodeSteps` gives, per node and
in program order, the outcomes of the four remote commands of the per-node
`runner` — remove the unit file (`rm --force`), `systemctl daemon-reload`,
recursively delete the install root, recursively delete the storage directory
(lines 60-66); `configExists` and `inventoryExists` say whether the local
config copy and the inventory file are present (lines 74, 77).  Runners are
awaited with `asyncio.gather(..., return_exceptions=True)` (line 68), so each
node's exception is captured and logged, never raised; the per-node runners
run concurrently and independently, which the embedding reflects by evaluating
each node purely from its own step outcomes. -/
def remove (disableRes stopRes : OpRes) (nodeSteps : List (List OpRes))
    (configExists inventoryExists : Bool) : RemoveRun :=
  match swallowSubproc disableRes with
  | .error e => ⟨[], [], false, false, some e⟩
  | .ok _ =>
    match swallowSubproc stopRes with
    | .error e => ⟨[], [], false, false, some e⟩
    | .ok _ =>
      let captured := gatherCapture (nodeSteps.map seqSteps)
      ⟨captured, failedIdxs captured, configExists, inventoryExists, none⟩

-- ---------------------------------------------------------------------------
-- Claim C4
-- ---------------------------------------------------------------------------

/-- C4: uninstall attempts disable then stop, swallowing their command
failures; then every node's removal sequence — unit-file removal, daemon
reload, recursive deletion of install root and storage — is evaluated with each
node's failure captured in that node's own slot, computed solely from that
node's outcomes, so no failure stops removal on other nodes; the local config
copy and inventory file are deleted exactly when present; and the whole
operation raises nothing to the caller — in particular also when a node's
remote unit file was already absent (its `rm --force` then succeeds). -/
theorem c4_remove_isolation :
    ∀ (disableRes stopRes : OpRes) (nodeSteps : List (List OpRes))
      (configExists inventoryExists : Bool),
      (disableRes = .ok () ∨ disableRes = .error .subprocErr) →
      (stopRes = .ok () ∨ stopRes = .error .subprocErr) →
      (remove disableRes stopRes nodeSteps configExists inventoryExists).raised
          = none ∧
      (remove disableRes stopRes nodeSteps configExists inventoryExists).perNode
          = nodeSteps.map (fun steps => errOf (seqSteps steps)) ∧
      (remove disableRes stopRes nodeSteps configExists
          inventoryExists).configDeleted = configExists ∧
      (remove disableRes stopRes nodeSteps configExists
          inventoryExists).inventoryDeleted = inventoryExists := by
  intro d s nodeSteps ce ie hd hs
  have hd2 : swallowSubproc d = .ok () := by
    rcases hd with h | h <;> subst h <;> rfl
  have hs2 : swallowSubproc s = .ok () := by
    rcases hs with h | h <;> subst h <;> rfl
  unfold remove
  rw [hd2, hs2]
  refine ⟨rfl, ?_, rfl, rfl⟩
  unfold gatherCapture
  rw [List.map_map]
  rfl

/-- Witness for `c4_remove_isolation`: disable fails (swallowed), node 0's
third command fails (captured), node 1 succeeds with its unit file already
absent; the run raises nothing and deletes the present local config copy. -/
theorem c4_remove_isolation_witness :
    (remove (.error .subprocErr) (.ok ())
        [[.ok (), .ok (), .error .otherErr, .ok ()],
         [.ok (), .ok (), .ok (), .ok ()]] true false).raised = none ∧
    (remove (.error .subprocErr) (.ok ())
        [[.ok (), .ok (), .error .otherErr, .ok ()],
         [.ok (), .ok (), .ok (), .ok ()]] true false).perNode
      = [[Except.ok (), .ok (), .error .otherErr, .ok ()],
         [.ok (), .ok (), .ok (), .ok ()]].map
          (fun steps => errOf (seqSteps steps)) ∧
    (remove (.error .subprocErr) (.ok ())
        [[.ok (), .ok (), .error .otherErr, .ok ()],
         [.ok (), .ok (), .ok (), .ok ()]] true false).configDeleted = true ∧
    (remove (.error .subprocErr) (.ok ())
        [[.ok (), .ok (), .error .otherErr, .ok ()],
         [.ok (), .ok (), .ok (), .ok ()]] true false).inventoryDeleted
      = false :=
  c4_remove_isolation (.error .subprocErr) (.ok ())
    [[.ok (), .ok (), .error .otherErr, .ok ()],
     [.ok (), .ok (), .ok (), .ok ()]] true false
    (Or.inr rfl) (Or.inl rfl)

-- ---------------------------------------------------------------------------
-- deploy (ctl.py lines 81-156)
-- ---------------------------------------------------------------------------

/-- Events of one `deploy` invocation, in execution order. -/
inductive DeployEvent where
  | keygen
  | enableCalled
  | startCalled
  | inventoryWritten
deriving DecidableEq

/-- Per-node environment of the `runner` coroutine (ctl.py lines 106-149):
outcomes of the remote operations before the encrypted-API-key write (lines
109-136), of that write itself (line 137), and of the operations after it
(lines 138-148). -/
structure NodeEnv where
  preSteps : List OpRes
  keySendStep : OpRes
  postSteps : List OpRes
deriving DecidableEq

/-- One `runner` call: what encrypted key value the node was sent, and how the
coroutine ended.  The value written to the node at line 137 is the closure
variable `api_enc_key`; a node whose earlier steps fail is sent nothing, and a
node that reaches line 137 is sent exactly that closure value, whether or not
the write or a later step then fails. -/
def runner (apiEncKey : Str) (env : NodeEnv) : Option Str × OpRes :=
  match seqSteps env.preSteps with
  | .error e => (none, .error e)
  | .ok _ =>
    match env.keySendStep with
    | .error e => (some apiEncKey, .error e)
    | .ok _ =>
      match seqSteps env.postSteps with
      | .error e => (some apiEncKey, .error e)
      | .ok _ => (some apiEncKey, .ok ())

/-- Observable outcome of one `deploy` invocation. -/
structure DeployRun where
  localApiKey : Str
  localApiKeyEnc : Str
  events : List DeployEvent
  keysSent : List (Option Str)
  raised : Option CtlErr
deriving DecidableEq

/-- `deploy` (ctl.py lines 81-156) at the granularity claims C1 and C5 need.
`keyGen i` models the key pair a hypothetical i-th call of `get_key_enc()`
would return; the source calls it once (line 96), before starting any runner,
writes the pair to the local key files (lines 98-102), and every runner closes
over the same `api_enc_key`.  All runners are then awaited by a bare
`asyncio.gather` (line 151) — no `return_exceptions` — so a failure propagates
out of `deploy`, and the subsequent `enable` (line 152), `start` (line 153)
and inventory write (lines 155-156) run only when every runner succeeded.
`enableRes` and `startRes` are the aggregate outcomes of those two fan-outs.
`deployTail` is the part after the runners were started: the bare gather over
their outcomes followed, on success only, by enable, start and the inventory
write; it returns the recorded events and what `deploy` raises. -/
def deployTail (installSnd : List OpRes) (enableRes startRes : OpRes) :
    List DeployEvent × Option CtlErr :=
  match gatherStrict installSnd with
  | .error e => ([.keygen], some e)
  | .ok _ =>
    match enableRes with
    | .error e => ([.keygen, .enableCalled], some e)
    | .ok _ =>
      match startRes with
      | .error e => ([.keygen, .enableCalled, .startCalled], some e)
      | .ok _ =>
        ([.keygen, .enableCalled, .startCalled, .inventoryWritten], none)

def deploy (keyGen : Nat → Str × Str) (envs : List NodeEnv)
    (enableRes startRes : OpRes) : DeployRun :=
  ⟨(keyGen 0).1, (keyGen 0).2,
   (deployTail ((envs.map (runner (keyGen 0).2)).map Prod.snd)
     enableRes startRes).1,
   (envs.map (runner (keyGen 0).2)).map Prod.fst,
   (deployTail ((envs.map (runner (keyGen 0).2)).map Prod.snd)
     enableRes startRes).2⟩

theorem deployTail_err (installSnd : List OpRes) (enableRes startRes : OpRes)
    (e : CtlErr) (hg : gatherStrict installSnd = .error e) :
    deployTail installSnd enableRes startRes = ([.keygen], some e) := by
  unfold deployTail
  rw [hg]

theorem deployTail_all_ok (installSnd : List OpRes)
    (hg : gatherStrict installSnd = .ok ()) :
    deployTail installSnd (.ok ()) (.ok ()) =
      ([.keygen, .enableCalled, .startCalled, .inventoryWritten], none) := by
  unfold deployTail
  rw [hg]

/-- Whatever happens, the first recorded event is the key generation. -/
theorem deployTail_head (installSnd : List OpRes) (enableRes startRes : OpRes) :
    (deployTail installSnd enableRes startRes).1.head? = some .keygen := by
  unfold deployTail
  cases gatherStrict installSnd with
  | error e => rfl
  | ok u =>
    cases u
    cases enableRes with
    | error e => rfl
    | ok u2 =>
      cases u2
      cases startRes with
      | error e => rfl
      | ok u3 => cases u3; rfl

-- ---------------------------------------------------------------------------
-- Claim C1
-- ---------------------------------------------------------------------------

/-- C1, counterexample: two nodes, the first node's install fails at its first
remote command, the second node's install succeeds entirely; `deploy` then
raises the failure instead of capturing it in a per-node outcome, and neither
enable nor start is ever issued — the second node, whose own steps all
succeeded, does not reach enabled+started. -/
theorem c1_counterexample :
    (runner ['e'] ⟨[.ok ()], .ok (), [.ok ()]⟩).2 = .ok () ∧
    (deploy (fun _ => (['k'], ['e']))
        [⟨[.error .subprocErr], .ok (), []⟩, ⟨[.ok ()], .ok (), [.ok ()]⟩]
        (.ok ()) (.ok ())).raised = some .subprocErr ∧
    DeployEvent.enableCalled ∉
      (deploy (fun _ => (['k'], ['e']))
        [⟨[.error .subprocErr], .ok (), []⟩, ⟨[.ok ()], .ok (), [.ok ()]⟩]
        (.ok ()) (.ok ())).events ∧
    DeployEvent.startCalled ∉
      (deploy (fun _ => (['k'], ['e']))
        [⟨[.error .subprocErr], .ok (), []⟩, ⟨[.ok ()], .ok (), [.ok ()]⟩]
        (.ok ()) (.ok ())).events := by
  refine ⟨rfl, rfl, ?_, ?_⟩ <;> decide

/-- C1 (amended): a failure in any node's install sequence is NOT captured per
node — the exception propagates out of the bare `asyncio.gather`, `deploy`
raises it, and enable and start are issued for no node, so even nodes whose own
steps succeeded do not reach enabled+started.  Only when every node's install
sequence succeeds does the deployer proceed to enable+start and the inventory
write. -/
theorem c1_install_failure_aborts :
    ∀ (keyGen : Nat → Str × Str) (envs : List NodeEnv) (enableRes startRes : OpRes),
      ((∃ env ∈ envs, (runner (keyGen 0).2 env).2 ≠ .ok ()) →
        (deploy keyGen envs enableRes startRes).raised ≠ none ∧
        (deploy keyGen envs enableRes startRes).events = [.keygen]) ∧
      ((∀ env ∈ envs, (runner (keyGen 0).2 env).2 = .ok ()) →
        enableRes = .ok () → startRes = .ok () →
        (deploy keyGen envs enableRes startRes).raised = none ∧
        (deploy keyGen envs enableRes startRes).events
          = [.keygen, .enableCalled, .startCalled, .inventoryWritten]) := by
  intro kg envs er sr
  constructor
  · intro h
    obtain ⟨env, henv, hfail⟩ := h
    have hne : gatherStrict ((envs.map (runner (kg 0).2)).map Prod.snd) ≠ .ok () := by
      rw [List.map_map]
      intro hok
      exact hfail ((gatherStrict_ok_iff _).mp hok _
        (List.mem_map_of_mem _ henv))
    cases hg : gatherStrict ((envs.map (runner (kg 0).2)).map Prod.snd) with
    | ok u => cases u; exact absurd hg hne
    | error e =>
      have ht := deployTail_err ((envs.map (runner (kg 0).2)).map Prod.snd)
        er sr e hg
      constructor
      · show (deployTail ((envs.map (runner (kg 0).2)).map Prod.snd) er sr).2
            ≠ none
        rw [ht]
        simp
      · show (deployTail ((envs.map (runner (kg 0).2)).map Prod.snd) er sr).1
            = [.keygen]
        rw [ht]
  · intro h her hsr
    have hok : gatherStrict ((envs.map (runner (kg 0).2)).map Prod.snd) = .ok () := by
      rw [List.map_map]
      apply (gatherStrict_ok_iff _).mpr
      intro r hr
      obtain ⟨env, henv, hrfl⟩ := List.mem_map.mp hr
      rw [← hrfl]
      exact h env henv
    subst her
    subst hsr
    have ht := deployTail_all_ok ((envs.map (runner (kg 0).2)).map Prod.snd) hok
    constructor
    · show (deployTail ((envs.map (runner (kg 0).2)).map Prod.snd)
          (.ok ()) (.ok ())).2 = none
      rw [ht]
    · show (deployTail ((envs.map (runner (kg 0).2)).map Prod.snd)
          (.ok ()) (.ok ())).1
        = [.keygen, .enableCalled, .startCalled, .inventoryWritten]
      rw [ht]

/-- Witness for `c1_install_failure_aborts`: one all-successful node, enable
and start succeed — deploy raises nothing and reaches the inventory write. -/
theorem c1_install_failure_aborts_witness :
    (deploy (fun _ => (['k'], ['e'])) [⟨[.ok ()], .ok (), [.ok ()]⟩]
        (.ok ()) (.ok ())).raised = none ∧
    (deploy (fun _ => (['k'], ['e'])) [⟨[.ok ()], .ok (), [.ok ()]⟩]
        (.ok ()) (.ok ())).events
      = [.keygen, .enableCalled, .startCalled, .inventoryWritten] :=
  (c1_install_failure_aborts (fun _ => (['k'], ['e']))
    [⟨[.ok ()], .ok (), [.ok ()]⟩] (.ok ()) (.ok ())).2 (by decide) rfl rfl

-- ---------------------------------------------------------------------------
-- Claim C5
-- ---------------------------------------------------------------------------

/-- A runner sends either nothing or exactly the closure key value. -/
theorem runner_fst (apiEncKey : Str) (env : NodeEnv) :
    (runner apiEncKey env).1 = none ∨ (runner apiEncKey env).1 = some apiEncKey := by
  unfold runner
  cases seqSteps env.preSteps with
  | error e => exact Or.inl rfl
  | ok u =>
    cases u
    cases env.keySendStep with
    | error e => exact Or.inr rfl
    | ok u2 =>
      cases u2
      cases seqSteps env.postSteps with
      | error e => exact Or.inr rfl
      | ok u3 => cases u3; exact Or.inr rfl

/-- C5: in one install invocation the API key pair is generated exactly once
and before any per-node work — the entire run depends only on the first value
the key generator returns, that pair is what lands in the local key files, and
each runner is handed the already-generated encrypted key — and every node that
is sent a key at all is sent the identical encrypted value `(keyGen 0).2`; the
key is never regenerated per node. -/
theorem c5_api_key_once :
    ∀ (keyGen keyGen₂ : Nat → Str × Str) (envs : List NodeEnv)
      (enableRes startRes : OpRes),
      (deploy keyGen envs enableRes startRes).localApiKey = (keyGen 0).1 ∧
      (deploy keyGen envs enableRes startRes).localApiKeyEnc = (keyGen 0).2 ∧
      (deploy keyGen envs enableRes startRes).keysSent.length = envs.length ∧
      (∀ k, some k ∈ (deploy keyGen envs enableRes startRes).keysSent →
        k = (keyGen 0).2) ∧
      (deploy keyGen envs enableRes startRes).events.head? = some .keygen ∧
      (keyGen₂ 0 = keyGen 0 →
        deploy keyGen₂ envs enableRes startRes = deploy keyGen envs enableRes startRes) := by
  intro kg kg₂ envs er sr
  refine ⟨rfl, rfl, by simp [deploy], ?_, ?_, ?_⟩
  · intro k hk
    have hmem : some k ∈ envs.map (fun env => (runner (kg 0).2 env).1) := by
      have heq : (deploy kg envs er sr).keysSent
          = (envs.map (runner (kg 0).2)).map Prod.fst := rfl
      rw [heq, List.map_map] at hk
      exact hk
    obtain ⟨env, _, hrfl⟩ := List.mem_map.mp hmem
    rcases runner_fst (kg 0).2 env with h | h
    · rw [h] at hrfl; cases hrfl
    · rw [h] at hrfl
      exact (Option.some.injEq _ _ ▸ hrfl).symm
  · exact deployTail_head ((envs.map (runner (kg 0).2)).map Prod.snd) er sr
  · intro heq
    unfold deploy
    rw [heq]

/-- Witness for `c5_api_key_once`: a two-node invocation where the second
generator call would return a different pair; the run still distributes only
the first pair's encrypted key. -/
theorem c5_api_key_once_witness :
    (deploy (fun i => if i = 0 then (['k'], ['e']) else (['x'], ['y']))
        [⟨[], .ok (), []⟩, ⟨[], .ok (), []⟩] (.ok ()) (.ok ())).localApiKey
      = ['k'] ∧
    (deploy (fun i => if i = 0 then (['k'], ['e']) else (['x'], ['y']))
        [⟨[], .ok (), []⟩, ⟨[], .ok (), []⟩] (.ok ()) (.ok ())).localApiKeyEnc
      = ['e'] := by
  have h := c5_api_key_once
    (fun i => if i = 0 then (['k'], ['e']) else (['x'], ['y']))
    (fun i => if i = 0 then (['k'], ['e']) else (['x'], ['y']))
    [⟨[], .ok (), []⟩, ⟨[], .ok (), []⟩] (.ok ()) (.ok ())
  exact ⟨h.1, h.2.1⟩

-- ---------------------------------------------------------------------------
-- status (ctl.py lines 166-175)
-- ---------------------------------------------------------------------------

/-- Observable outcome of one `status` invocation. -/
structure StatusRun where
  probesIssued : List Str
  raised : Option CtlErr
deriving DecidableEq

/-- Python `max(map(len, nodes))` (ctl.py line 170): `max()` over an empty
sequence raises ValueError, otherwise it folds `max` over the lengths. -/
def pyMaxLen (nodes : List Str) : Except CtlErr Nat :=
  match nodes with
  | [] => .error .valueErr
  | n :: rest => .ok ((rest.map List.length).foldl Nat.max n.length)

/-- `status` (ctl.py lines 166-175).  `certsOk` abstracts whether certificate
resolution, the API-key read and pool construction (lines 167-169) succeed;
the maximum node-name length is computed (line 170) before `rpc_map` fans the
health probe out to the nodes (line 171), so when that computation raises, no
probe has been issued yet. -/
def status (certsOk : Bool) (nodes : List Str) : StatusRun :=
  if certsOk = false then ⟨[], some .runtimeErr⟩
  else
    match pyMaxLen nodes with
    | .error e => ⟨[], some e⟩
    | .ok _ => ⟨nodes, none⟩

-- ---------------------------------------------------------------------------
-- Claim C10
-- ---------------------------------------------------------------------------

/-- C10: called with an empty node list, `status` raises before issuing any
probe — the maximum of node-name lengths is taken over an empty sequence and
raises ValueError — and for every non-empty node list that maximum exists and,
when the earlier certificate and pool steps succeed, the probe goes out to
every node with nothing raised. -/
theorem c10_status_empty_nodes :
    (∀ certsOk : Bool, (status certsOk []).probesIssued = [] ∧
        (status certsOk []).raised ≠ none) ∧
    (∀ nodes : List Str, nodes ≠ [] →
      (∃ m, pyMaxLen nodes = .ok m) ∧ status true nodes = ⟨nodes, none⟩) := by
  constructor
  · intro certsOk
    cases certsOk with
    | false => exact ⟨rfl, by simp [status]⟩
    | true => exact ⟨rfl, by simp [status, pyMaxLen]⟩
  · intro nodes hne
    cases nodes with
    | nil => exact absurd rfl hne
    | cons n rest =>
      exact ⟨⟨(rest.map List.length).foldl Nat.max n.length, rfl⟩, rfl⟩

/-- Witness for `c10_status_empty_nodes`: with nodes `a` and `bb` the length
maximum exists and both nodes are probed. -/
theorem c10_status_empty_nodes_witness :
    (∃ m, pyMaxLen [['a'], ['b', 'b']] = .ok m) ∧
      status true [['a'], ['b', 'b']] = ⟨[['a'], ['b', 'b']], none⟩ :=
  c10_status_empty_nodes.2 [['a'], ['b', 'b']] (by decide)

-- ---------------------------------------------------------------------------
-- Temporary archive upload path (ctl.py line 112)
-- ---------------------------------------------------------------------------

/-- The fixed prefix of the temporary upload path. -/
def tempPathFixed : Str := "/tmp/distribution_".toList

/-- ctl.py line 112: the temporary remote path is the f-string
`/tmp/distribution_` + `str(uuid.uuid1())` + `.` + `name.split('.')[1]`.
`uuidStr` is the freshly generated `uuid.uuid1()` rendered as a string (36
characters); `split('.')[1]` is the SECOND dot-separated component of the
archive file name, and indexing raises IndexError when the name has no dot. -/
def tempDistrPath (uuidStr distrName : Str) : Except CtlErr Str :=
  match (pySplit ['.'] distrName).get? 1 with
  | none => .error .indexErr
  | some comp => .ok (tempPathFixed ++ uuidStr ++ '.' :: comp)

/-- The archive file name's extension in the usual sense (what
`pathlib.Path.suffix` strips the dot from): the component after the LAST dot. -/
def fileExtension (name : Str) : Str := ((pySplit ['.'] name).reverse).headD []

/-- Whether the constructed temporary path ends with the archive's (dotted)
extension. -/
def tempPathEndsWithExt (uuidStr distrName : Str) : Bool :=
  match tempDistrPath uuidStr distrName with
  | .error _ => false
  | .ok p => isSuf ('.' :: fileExtension distrName) p

/-- A concrete 36-character rendering of a `uuid.uuid1()` value. -/
def uuidExample : Str := "0a1b2c3d-4e5f-6a7b-8c9d-0e1f2a3b4c5d".toList

theorem isPre_append_self (a b : Str) : isPre a (a ++ b) = true := by
  induction a with
  | nil => rfl
  | cons x xs ih => simp [isPre, ih]

theorem isSuf_append_self (x y : Str) : isSuf x (y ++ x) = true := by
  unfold isSuf
  rw [List.reverse_append]
  exact isPre_append_self x.reverse y.reverse

-- ---------------------------------------------------------------------------
-- Claim C8
-- ---------------------------------------------------------------------------

/-- C8, counterexample: for the archive name `pkg.tar.gz` the code uses the
SECOND dot-separated component (`tar`), not the extension (`gz`): the path is
built without error, but `/tmp/distribution_<uuid>.tar` does not end with the
archive's extension. -/
theorem c8_counterexample :
    (tempDistrPath uuidExample "pkg.tar.gz".toList).isOk = true ∧
      tempPathEndsWithExt uuidExample "pkg.tar.gz".toList = false := by
  constructor <;> decide

/-- C8 (amended): the temporary remote upload path is collision-free — distinct
fresh unique identifiers (equal-length strings, as 36-character UUID renderings
are) give distinct paths across nodes and invocations, for any archive name —
and the path ends with a dot followed by the SECOND dot-separated component of
the archive file name; that component is the archive's extension exactly when
the name contains exactly one dot (then the path does end with the extension),
while a name with no dot makes the construction raise IndexError. -/
theorem c8_temp_path :
    (∀ (u₁ u₂ name p₁ p₂ : Str),
      u₁.length = u₂.length → u₁ ≠ u₂ →
      tempDistrPath u₁ name = .ok p₁ → tempDistrPath u₂ name = .ok p₂ →
      p₁ ≠ p₂) ∧
    (∀ (u stem ext : Str), ('.') ∉ stem → ('.') ∉ ext →
      tempDistrPath u (stem ++ '.' :: ext)
          = .ok (tempPathFixed ++ u ++ '.' :: ext) ∧
        isSuf ('.' :: fileExtension (stem ++ '.' :: ext))
          (tempPathFixed ++ u ++ '.' :: ext) = true) := by
  constructor
  · intro u₁ u₂ name p₁ p₂ hlen hne h₁ h₂
    unfold tempDistrPath at h₁ h₂
    cases hsp : (pySplit ['.'] name).get? 1 with
    | none => rw [hsp] at h₁; cases h₁
    | some comp =>
      rw [hsp] at h₁ h₂
      simp only [Except.ok.injEq] at h₁ h₂
      subst h₁
      subst h₂
      intro hp
      rw [List.append_assoc, List.append_assoc] at hp
      have h3 : u₁ ++ '.' :: comp = u₂ ++ '.' :: comp :=
        List.append_cancel_left hp
      exact hne (List.append_inj h3 hlen).1
  · intro u stem ext hstem hext
    have hsp : pySplit ['.'] (stem ++ '.' :: ext) = [stem, ext] := by
      rw [pySplit_char_append '.' stem ext hstem, pySplit_char_free '.' ext hext]
    constructor
    · unfold tempDistrPath
      rw [hsp]
      rfl
    · have hfe : fileExtension (stem ++ '.' :: ext) = ext := by
        unfold fileExtension
        rw [hsp]
        rfl
      rw [hfe]
      exact isSuf_append_self ('.' :: ext) (tempPathFixed ++ u)

/-- Witness for `c8_temp_path`: distinct unique identifiers `a` and `b` with
archive `d.sh` give distinct temporary paths. -/
theorem c8_temp_path_witness :
    ("/tmp/distribution_a.sh".toList : Str) ≠ "/tmp/distribution_b.sh".toList :=
  c8_temp_path.1 ['a'] ['b'] "d.sh".toList
    "/tmp/distribution_a.sh".toList "/tmp/distribution_b.sh".toList
    rfl (by decide) (by decide) (by decide)

-- ---------------------------------------------------------------------------
-- Upload semaphore (ctl.py lines 88, 115-116)
-- ---------------------------------------------------------------------------

/-- Phase of one node's runner with respect to its archive upload: before the
semaphore scope, inside it transferring, done with the transfer, or failed
during the transfer (the exception propagating out of the scope). -/
inductive UpPhase where
  | beforeUpload
  | uploading
  | doneUpload
  | failedUpload
deriving DecidableEq

/-- Size of the upload semaphore (ctl.py line 88):
`asyncio.Semaphore(max_parallel_uploads if max_parallel_uploads else len(nodes))`
— by Python truthiness of an int, the configured limit when non-zero, otherwise
the node count. -/
def semSize (maxParallelUploads nodeCount : Nat) : Nat :=
  if maxParallelUploads ≠ 0 then maxParallelUploads else nodeCount

/-- Interleaving state of an install invocation's uploads: the semaphore's free
slots and every node's phase. -/
structure UploadSys where
  avail : Nat
  phases : List UpPhase
deriving DecidableEq

/-- Initially every slot is free and every runner is before its upload. -/
def initSys (maxParallelUploads nodeCount : Nat) : UploadSys :=
  ⟨semSize maxParallelUploads nodeCount, List.replicate nodeCount .beforeUpload⟩

/-- One scheduler step of the single-threaded event loop.  `acquire` is entry
into `async with upload_semaphore` (line 115): it requires a free slot and
blocks otherwise.  `releaseDone` and `releaseFail` are the exits of that scope
after `await node.copy(...)` (line 116) — the `async with` releases the slot on
every exit path, both when the transfer returns and when it raises. -/
inductive UStep : UploadSys → UploadSys → Prop where
  | acquire (i a : Nat) (ph : List UpPhase)
      (hi : ph.get? i = some .beforeUpload) :
      UStep ⟨a + 1, ph⟩ ⟨a, ph.set i .uploading⟩
  | releaseDone (i a : Nat) (ph : List UpPhase)
      (hi : ph.get? i = some .uploading) :
      UStep ⟨a, ph⟩ ⟨a + 1, ph.set i .doneUpload⟩
  | releaseFail (i a : Nat) (ph : List UpPhase)
      (hi : ph.get? i = some .uploading) :
      UStep ⟨a, ph⟩ ⟨a + 1, ph.set i .failedUpload⟩

/-- States reachable during one install invocation over `nodeCount` nodes with
configured limit `maxParallelUploads`. -/
def Reachable (maxParallelUploads nodeCount : Nat) (s : UploadSys) : Prop :=
  Relation.ReflTransGen UStep (initSys maxParallelUploads nodeCount) s

/-- Number of archive uploads in flight. -/
def countUploading (s : UploadSys) : Nat :=
  s.phases.countP (fun p => decide (p = .uploading))

/-- Setting one known element shifts `countP` by the two elements'
contributions. -/
theorem countP_set {α : Type} (p : α → Bool) :
    ∀ (l : List α) (i : Nat) (x v : α), l.get? i = some x →
      (l.set i v).countP p + (if p x then 1 else 0)
        = l.countP p + (if p v then 1 else 0) := by
  intro l
  induction l with
  | nil => intro i x v h; cases h
  | cons a t ih =>
    intro i x v h
    cases i with
    | zero =>
      rw [List.get?_cons_zero] at h
      injection h with h
      subst h
      rw [List.set_cons_zero, List.countP_cons, List.countP_cons]
      omega
    | succ j =>
      rw [List.get?_cons_succ] at h
      rw [List.set_cons_succ, List.countP_cons, List.countP_cons]
      have := ih j x v h
      omega

theorem countUploading_init (L N : Nat) : countUploading (initSys L N) = 0 := by
  unfold countUploading initSys
  rw [List.countP_eq_zero]
  intro a ha
  rw [List.eq_of_mem_replicate ha]
  decide

/-- Semaphore invariant: free slots plus uploads in flight always equal the
semaphore's size. -/
theorem reachable_invariant (L N : Nat) (s : UploadSys)
    (h : Reachable L N s) : s.avail + countUploading s = semSize L N := by
  induction h with
  | refl =>
    rw [countUploading_init]
    rfl
  | tail _ hstep ih =>
    cases hstep with
    | acquire i a ph hi =>
      have hc := countP_set (fun p => decide (p = UpPhase.uploading))
        ph i .beforeUpload .uploading hi
      simp at hc
      have ih2 : (a + 1) + ph.countP (fun p => decide (p = UpPhase.uploading))
          = semSize L N := ih
      show a + (ph.set i .uploading).countP
          (fun p => decide (p = UpPhase.uploading)) = semSize L N
      omega
    | releaseDone i a ph hi =>
      have hc := countP_set (fun p => decide (p = UpPhase.uploading))
        ph i .uploading .doneUpload hi
      simp at hc
      have ih2 : a + ph.countP (fun p => decide (p = UpPhase.uploading))
          = semSize L N := ih
      show (a + 1) + (ph.set i .doneUpload).countP
          (fun p => decide (p = UpPhase.uploading)) = semSize L N
      omega
    | releaseFail i a ph hi =>
      have hc := countP_set (fun p => decide (p = UpPhase.uploading))
        ph i .uploading .failedUpload hi
      simp at hc
      have ih2 : a + ph.countP (fun p => decide (p = UpPhase.uploading))
          = semSize L N := ih
      show (a + 1) + (ph.set i .failedUpload).countP
          (fun p => decide (p = UpPhase.uploading)) = semSize L N
      omega

-- ---------------------------------------------------------------------------
-- Claim C2
-- ---------------------------------------------------------------------------

/-- C2: for every node count N and configured limit L, in every state reachable
during an install invocation the number of concurrent archive uploads never
exceeds the semaphore size, and that size is L when L > 0 and N otherwise; each
upload holds one slot only for the transfer itself and the slot is freed on
both exit paths, success and failure, which the step relation encodes. -/
theorem c2_upload_bound :
    ∀ (maxParallelUploads nodeCount : Nat) (s : UploadSys),
      Reachable maxParallelUploads nodeCount s →
      countUploading s ≤ semSize maxParallelUploads nodeCount ∧
        semSize maxParallelUploads nodeCount
          = if 0 < maxParallelUploads then maxParallelUploads else nodeCount := by
  intro L N s h
  have hinv := reachable_invariant L N s h
  constructor
  · omega
  · unfold semSize
    cases L with
    | zero => rfl
    | succ m => simp

/-- Witness for `c2_upload_bound`: two nodes, no configured limit, one upload
in flight after a single acquire step — the bound 2 holds. -/
theorem c2_upload_bound_witness :
    countUploading ⟨1, [.uploading, .beforeUpload]⟩ ≤ semSize 0 2 ∧
      semSize 0 2 = if 0 < 0 then 0 else 2 :=
  c2_upload_bound 0 2 ⟨1, [.uploading, .beforeUpload]⟩
    (Relation.ReflTransGen.single
      (UStep.acquire 0 1 [.beforeUpload, .beforeUpload] rfl))

end AiorpcSvc
